import Mathlib

/-!
Shallow embedding of the host-header validation utilities of the repository
(`packages/angular/ssr/src/utils/validation.ts` and the lazy header guard
`cloneRequestAndPatchHeaders`), together with theorems settling the claims
about them.  Strings are modelled through their underlying character lists;
JavaScript string operations (`split`, `trim`, `slice`, `startsWith`,
`endsWith`, `toLowerCase`) are embedded as explicit functions below.
-/

/-- JavaScript whitespace test for the ASCII range, as removed by
`String.prototype.trim`. -/
def isJsWhitespace (c : Char) : Bool :=
  c == ' ' || c == '\t' || c == '\n' || c == '\r' || c == '\x0b' || c == '\x0c'

/-- JavaScript `String.prototype.trim`: remove leading and trailing whitespace. -/
def jsTrim (s : String) : String :=
  ⟨((s.data.dropWhile isJsWhitespace).reverse.dropWhile isJsWhitespace).reverse⟩

/-- JavaScript `s.split(',', 1)[0]`: the segment of `s` before its first comma
(all of `s` when it has no comma). -/
def firstCommaSegment (s : String) : String :=
  ⟨s.data.takeWhile (· != ',')⟩

/-- JavaScript `s.startsWith(p)`. -/
def jsStartsWith (s p : String) : Bool := p.data.isPrefixOf s.data

/-- JavaScript `s.endsWith(p)`. -/
def jsEndsWith (s p : String) : Bool := p.data.isSuffixOf s.data

/-- JavaScript `s.slice(n)` for a non-negative index (ASCII model). -/
def jsSlice (s : String) (n : Nat) : String := ⟨s.data.drop n⟩

/-- ASCII lowercasing of one character, as performed by JavaScript
`toLowerCase` and by WHATWG domain lowercasing on the ASCII range. -/
def lowerChar (c : Char) : Char :=
  if 65 ≤ c.toNat ∧ c.toNat ≤ 90 then Char.ofNat (c.toNat + 32) else c

/-- ASCII lowercasing of a string. -/
def lowerStr (s : String) : String := ⟨s.data.map lowerChar⟩

/-- The argument type of `getFirstHeaderValue`:
`string | string[] | undefined | null` (both nullish shapes collapse to
`absent`). -/
inductive HeaderValue where
  | absent
  | str (s : String)
  | arr (l : List String)
deriving DecidableEq

/-- JavaScript `Array.prototype.toString`, i.e. `join(",")`. -/
def joinComma : List String → String
  | [] => ""
  | [a] => a
  | a :: rest => a ++ "," ++ joinComma rest

/-- JavaScript `toString()` applied through optional chaining: `absent`
stays absent, a string is itself, an array is joined with commas. -/
def HeaderValue.toStr : HeaderValue → Option String
  | .absent => none
  | .str s => some s
  | .arr l => some (joinComma l)

/-- The function `getFirstHeaderValue` (validation.ts):
`value?.toString().split(',', 1)[0]?.trim()`. -/
def getFirstHeaderValue (value : HeaderValue) : Option String :=
  value.toStr.map (fun s => jsTrim (firstCommaSegment s))

/-- The function `getFirstHeaderValue` applied to the nullable string produced by
`headers.get`. -/
def firstValueOpt (v : Option String) : Option String :=
  v.map (fun s => jsTrim (firstCommaSegment s))

/-- The first comma-separated, trimmed token of a (non-null) header value. -/
def firstValueStr (s : String) : String := jsTrim (firstCommaSegment s)

/-- The header store of a request: a list of (lowercased name, combined
value) pairs, mirroring the `Headers` object backing `request.headers`. -/
abbrev HeadersT := List (String × String)

/-- The lookup `headers.get(name)`: case-insensitive, returning the stored value,
or null when the header is absent. -/
def headersGet (h : HeadersT) (name : String) : Option String :=
  (h.find? (fun p => p.fst == lowerStr name)).map Prod.snd

/-- The validation errors thrown by the module, as a tagged union; the
rendered message of each is `Err.message`. -/
inductive Err where
  | headerChars (name : String)
  | portFormat
  | protoFormat
  | traversal
  | unparsable (name : String)
  | headerNotAllowed (name value : String)
  | urlNotAllowed (hostname : String)
deriving DecidableEq

/-- The exact message text of each thrown error (part of the observable
contract). -/
def Err.message : Err → String
  | .headerChars name => "Header \"" ++ name ++ "\" contains characters that are not allowed."
  | .portFormat => "Header \"x-forwarded-port\" must be a numeric value."
  | .protoFormat => "Header \"x-forwarded-proto\" must be either \"http\" or \"https\"."
  | .traversal => "Header \"x-forwarded-prefix\" must not start with multiple \"/\" or \"\\\" or contain \".\", \"..\" path segments."
  | .unparsable name => "Header \"" ++ name ++ "\" contains an invalid value and cannot be parsed."
  | .headerNotAllowed name value => "Header \"" ++ name ++ "\" with value \"" ++ value ++ "\" is not allowed."
  | .urlNotAllowed hostname => "URL with hostname \"" ++ hostname ++ "\" is not allowed."

/-- The constant `VALID_HOST_REGEX`, the test of `/^[a-z0-9.:-]+$/i`. -/
def validHostStr (s : String) : Bool :=
  !s.data.isEmpty && s.data.all (fun c => c.isAlpha || c.isDigit || c == '.' || c == ':' || c == '-')

/-- The constant `VALID_PORT_REGEX`, the test of `/^\d+$/`. -/
def validPortStr (s : String) : Bool :=
  !s.data.isEmpty && s.data.all Char.isDigit

/-- The constant `VALID_PROTO_REGEX`, the test of `/^https?$/i`. -/
def validProtoStr (s : String) : Bool :=
  lowerStr s == "http" || lowerStr s == "https"

/-- The function `isHostAllowed` (validation.ts): exact membership in the allowlist, else
some entry starting with `*.` whose `slice(1)` (the entry with the leading
`*` removed) is a suffix of the hostname. -/
def isHostAllowed (hostname : String) (allowedHosts : List String) : Bool :=
  allowedHosts.contains hostname ||
    allowedHosts.any (fun allowedHost =>
      jsStartsWith allowedHost "*." && jsEndsWith hostname (jsSlice allowedHost 1))

/-- The `host`/`x-forwarded-host` character check of `validateHeaders`:
`if (headerValue && !VALID_HOST_REGEX.test(headerValue)) throw ...`. -/
def checkHostHeader (h : HeadersT) (headerName : String) : Except Err Unit :=
  match firstValueOpt (headersGet h headerName) with
  | some headerValue =>
      if headerValue != "" && !validHostStr headerValue then
        .error (.headerChars headerName)
      else .ok ()
  | none => .ok ()

/-- The `x-forwarded-port` check of `validateHeaders`. -/
def checkPort (h : HeadersT) : Except Err Unit :=
  match firstValueOpt (headersGet h "x-forwarded-port") with
  | some v => if v != "" && !validPortStr v then .error .portFormat else .ok ()
  | none => .ok ()

/-- The `x-forwarded-proto` check of `validateHeaders`. -/
def checkProto (h : HeadersT) : Except Err Unit :=
  match firstValueOpt (headersGet h "x-forwarded-proto") with
  | some v => if v != "" && !validProtoStr v then .error .protoFormat else .ok ()
  | none => .ok ()

/-- The function `validateHeaders` (validation.ts): character checks for `host` then
`x-forwarded-host` (the `Set` iterates in insertion order), then the
numeric-port check, then the protocol check; the first failing check
throws. -/
def validateHeaders (h : HeadersT) : Except Err Unit :=
  match checkHostHeader h "host" with
  | .error e => .error e
  | .ok _ =>
    match checkHostHeader h "x-forwarded-host" with
    | .error e => .error e
    | .ok _ =>
      match checkPort h with
      | .error e => .error e
      | .ok _ => checkProto h

/-- A path-separator character of the `x-forwarded-prefix` check. -/
def isSep (c : Char) : Bool := c == '/' || c == '\\'

/-- Split a character list on separator characters, JavaScript
`split`-style (empty segments are kept; the empty input gives one empty
segment). -/
def splitChars (p : Char → Bool) : List Char → List (List Char)
  | [] => [[]]
  | c :: rest =>
      if p c then [] :: splitChars p rest
      else
        match splitChars p rest with
        | [] => [[c]]
        | seg :: segs => (c :: seg) :: segs

/-- The path segments of an `x-forwarded-prefix` value: split on `/` and
`\`. -/
def pathSegments (s : String) : List String :=
  (splitChars isSep s.data).map (fun l => (⟨l⟩ : String))

/-- A path segment equal to `.` or `..`. -/
def isDotSegment (s : String) : Bool := s == "." || s == ".."

/-- The value begins with two or more of `/` or `\` in any combination. -/
def startsWithTwoSeps (s : String) : Bool :=
  match s.data with
  | a :: b :: _ => isSep a && isSep b
  | _ => false

/-- Modelled from the spec: the rejection condition of the
`x-forwarded-prefix` check of the current `validateHeaders` (the excerpted
validation source predates this check; the unit tests in
`validation_spec.ts` exercise it).  Per the spec, a value is rejected when
it begins with two or more of `/` or `\` in any combination, or when any
path segment (splitting on `/` or `\`) equals `.` or `..`. -/
def forwardedPrefixBad (s : String) : Bool :=
  startsWithTwoSeps s || (pathSegments s).any isDotSegment

/-- Modelled from the spec: `validateHeaders` of the current source
additionally checks `x-forwarded-prefix` after the other header checks,
throwing a PrefixTraversalError when the first value is present (non-empty)
and `forwardedPrefixBad` holds. -/
def validateHeadersSpec (h : HeadersT) : Except Err Unit :=
  match validateHeaders h with
  | .error e => .error e
  | .ok _ =>
    match firstValueOpt (headersGet h "x-forwarded-prefix") with
    | some v => if v != "" && forwardedPrefixBad v then .error .traversal else .ok ()
    | none => .ok ()

/-- The parsed-URL view used by `validateUrl`: only the `hostname` field is
read. -/
structure URLm where
  hostname : String
deriving DecidableEq

/-- The request view used by the validators: its header store and the
hostname of its (already absolute) URL. -/
structure Requestm where
  headers : HeadersT
  url : URLm
deriving DecidableEq

/-- The function `validateUrl` (validation.ts): throw unless the URL hostname is in the
allowlist. -/
def validateUrl (url : URLm) (allowedHosts : List String) : Except Err Unit :=
  if isHostAllowed url.hostname allowedHosts then .ok ()
  else .error (.urlNotAllowed url.hostname)

/-- Modelled from the spec: the current `validateRequest` takes a third
parameter `disableHostCheck` (default false; the excerpted validation
source predates it, the unit tests call the three-parameter form).  It
always runs `validateHeaders` and, unless `disableHostCheck` is true, then
runs `validateUrl` on the request URL. -/
def validateRequest (request : Requestm) (allowedHosts : List String)
    (disableHostCheck : Bool := false) : Except Err Unit :=
  match validateHeadersSpec request.headers with
  | .error e => .error e
  | .ok _ =>
      if disableHostCheck then .ok ()
      else validateUrl request.url allowedHosts

/-- A forbidden host character of the WHATWG URL host parser (ASCII
model). -/
def isForbiddenHostChar (c : Char) : Bool :=
  c.toNat < 32 || c.toNat == 127 ||
    c == ' ' || c == '#' || c == '%' || c == '/' || c == ':' || c == '<' ||
    c == '>' || c == '?' || c == '@' || c == '[' || c == '\\' || c == ']' ||
    c == '^' || c == '|' || c == '"'

/-- A decimal digit (ASCII model). -/
def isDigitChar (c : Char) : Bool := 48 ≤ c.toNat && c.toNat ≤ 57

/-- An octal digit (ASCII model). -/
def isOctalDigitChar (c : Char) : Bool := 48 ≤ c.toNat && c.toNat ≤ 55

/-- A lowercase hexadecimal digit (domains are lowercased before the IPv4
checks, so only `0`-`9` and `a`-`f` can occur). -/
def isHexDigitChar (c : Char) : Bool :=
  isDigitChar c || (97 ≤ c.toNat && c.toNat ≤ 102)

/-- Numeric value of a decimal digit list. -/
def digitsVal (l : List Char) : Nat :=
  l.foldl (fun n c => n * 10 + (c.toNat - 48)) 0

/-- Numeric value of an octal digit list. -/
def octalVal (l : List Char) : Nat :=
  l.foldl (fun n c => n * 8 + (c.toNat - 48)) 0

/-- Numeric value of one lowercase hexadecimal digit. -/
def hexDigitVal (c : Char) : Nat :=
  if c.toNat ≤ 57 then c.toNat - 48 else c.toNat - 87

/-- Numeric value of a lowercase hexadecimal digit list. -/
def hexVal (l : List Char) : Nat :=
  l.foldl (fun n c => n * 16 + hexDigitVal c) 0

/-- WHATWG IPv4 number parser on a (lowercased) label: a `0x` prefix
selects hexadecimal (no digits meaning 0), a leading `0` selects octal,
otherwise decimal; a character outside the selected radix is a failure. -/
def parseIPv4Number (l : List Char) : Option Nat :=
  match l with
  | [] => none
  | '0' :: 'x' :: rest =>
      if rest.isEmpty then some 0
      else if rest.all isHexDigitChar then some (hexVal rest) else none
  | '0' :: rest =>
      if rest.isEmpty then some 0
      else if rest.all isOctalDigitChar then some (octalVal rest) else none
  | _ =>
      if l.all isDigitChar then some (digitsVal l) else none

/-- A label that counts as a number for the WHATWG "ends in a number"
checker: non-empty and all decimal digits, or a valid IPv4 number. -/
def isNumberLabel (l : List Char) : Bool :=
  (!l.isEmpty && l.all isDigitChar) || (parseIPv4Number l).isSome

/-- WHATWG "ends in a number" checker on a (lowercased) domain: after
dropping a trailing empty label produced by a trailing dot, its last label
is a number. -/
def endsInNumber (domain : List Char) : Bool :=
  let parts := splitChars (fun c => c == '.') domain
  match parts.getLast? with
  | none => false
  | some lastPart =>
      if lastPart.isEmpty then
        match parts.dropLast.getLast? with
        | none => false
        | some l2 => isNumberLabel l2
      else isNumberLabel lastPart

/-- Sequence a list of optional numbers, failing if any is absent. -/
def allSome : List (Option Nat) → Option (List Nat)
  | [] => some []
  | none :: _ => none
  | some n :: rest => (allSome rest).map (fun ns => n :: ns)

/-- Positional weights of the leading IPv4 parts: part `i` contributes
`n * 256 ^ (3 - i)`. -/
def ipv4Weighted : List Nat → Nat → Nat
  | [], _ => 0
  | n :: rest, i => n * 256 ^ (3 - i) + ipv4Weighted rest (i + 1)

/-- WHATWG IPv4 parser on a (lowercased) domain that ends in a number: the
dot-separated parts (a trailing empty part is dropped) are parsed as IPv4
numbers; more than four parts, a part that is not a number, a leading part
above 255, or a last part at or above `256 ^ (5 - size)` are failures;
otherwise the parts combine into the 32-bit address. -/
def parseIPv4 (domain : List Char) : Option Nat :=
  let parts1 := splitChars (fun c => c == '.') domain
  let parts :=
    match parts1.getLast? with
    | some [] => if parts1.length > 1 then parts1.dropLast else parts1
    | _ => parts1
  if parts.length > 4 then none
  else
    match allSome (parts.map parseIPv4Number) with
    | none => none
    | some numbers =>
        match numbers.getLast? with
        | none => none
        | some lastN =>
            if numbers.dropLast.any (fun n => 255 < n) then none
            else if 256 ^ (5 - numbers.length) ≤ lastN then none
            else some (lastN + ipv4Weighted numbers.dropLast 0)

/-- Dotted-decimal serialization of a 32-bit IPv4 address. -/
def serializeIPv4 (n : Nat) : List Char :=
  (Nat.repr (n / 16777216)).data ++ '.' ::
    (Nat.repr (n / 65536 % 256)).data ++ '.' ::
      (Nat.repr (n / 256 % 256)).data ++ '.' :: (Nat.repr (n % 256)).data

/-- Model of the WHATWG URL parser applied to the synthetic URL
`http://<value>`, as used through `URL.canParse` / `new URL(...)` in
`verifyHostAllowed`: returns the parsed `hostname` when the URL parses,
`none` otherwise.  ASCII-level model: tab and newline characters are
stripped; the authority ends at the first `/`, `\`, `?` or `#`; userinfo
up to the last `@` is dropped; the host is cut at the first `:` and the
remainder must be a decimal port not exceeding 65535; an empty host or a
host containing a forbidden host character fails; ASCII letters are
lowercased; a domain that ends in a number is parsed as an IPv4 address
and serialized in dotted-decimal form (failing when the IPv4 parse
fails).  (IDNA, percent-decoding and IPv6 are not modelled.) -/
def parseHost (value : String) : Option String :=
  let cs := value.data.filter (fun c => !(c == '\t' || c == '\n' || c == '\r'))
  let auth := cs.takeWhile (fun c => !(c == '/' || c == '\\' || c == '?' || c == '#'))
  let hostport :=
    if auth.contains '@' then (auth.reverse.takeWhile (· != '@')).reverse else auth
  let host := hostport.takeWhile (· != ':')
  let port := (hostport.dropWhile (· != ':')).drop 1
  if host.isEmpty then none
  else if host.any isForbiddenHostChar then none
  else if !port.all isDigitChar then none
  else if !port.isEmpty && digitsVal port > 65535 then none
  else
    let domain := host.map lowerChar
    if endsInNumber domain then
      match parseIPv4 domain with
      | none => none
      | some ip => some ⟨serializeIPv4 ip⟩
    else some ⟨domain⟩

/-- The sensitive header names (`HOST_HEADERS_TO_VALIDATE`), tested against
the lowercased header name. -/
def isSensitiveName (name : String) : Bool :=
  lowerStr name == "host" || lowerStr name == "x-forwarded-host"

/-- The function `verifyHostAllowed` (validation.ts): take the first value; if empty,
accept; else build `http://<value>`, throw an unparsable-header error when
it cannot be parsed, and a not-allowed error when the parsed hostname fails
the allowlist check. -/
def verifyHostAllowed (headerName headerValue : String)
    (allowedHosts : List String) : Except Err Unit :=
  let value := firstValueStr headerValue
  if value == "" then .ok ()
  else
    match parseHost value with
    | none => .error (.unparsable headerName)
    | some hostname =>
        if isHostAllowed hostname allowedHosts then .ok ()
        else .error (.headerNotAllowed headerName value)

/-- The signal-free core of `validateHeader`: skip falsy values and
non-sensitive names, else `verifyHostAllowed`. -/
def headerCheck (name : String) (value : Option String)
    (allowedHosts : List String) : Except Err Unit :=
  match value with
  | none => .ok ()
  | some v =>
      if v == "" then .ok ()
      else if !isSensitiveName name then .ok ()
      else verifyHostAllowed name v allowedHosts

/-- The deferred error signal of `cloneRequestAndPatchHeaders`: `none`
while unresolved, `some e` once resolved with `e`. -/
abbrev Signal := Option Err

/-- Resolving the one-shot promise: only the first resolution takes
effect. -/
def resolveSignal (s : Signal) (e : Err) : Signal :=
  match s with
  | none => some e
  | some e0 => some e0

/-- The function `validateHeader` (validation.ts): run `headerCheck`; on failure resolve
the error signal with the thrown error and re-throw it. -/
def validateHeader (name : String) (value : Option String)
    (allowedHosts : List String) (s : Signal) : Except Err Unit × Signal :=
  match headerCheck name value allowedHosts with
  | .ok _ => (.ok (), s)
  | .error e => (.error e, resolveSignal s e)

/-- The patched `headers.get` of the guarded request: fetch the raw value;
return it unchanged when falsy; otherwise validate it (throwing on
failure) and return it. -/
def patchedGet (h : HeadersT) (allowedHosts : List String) (name : String)
    (s : Signal) : Except Err (Option String) × Signal :=
  match headersGet h name with
  | none => (.ok none, s)
  | some v =>
      if v == "" then (.ok (some v), s)
      else
        match validateHeader name (some v) allowedHosts s with
        | (.ok _, s1) => (.ok (some v), s1)
        | (.error e, s1) => (.error e, s1)

/-- The patched `headers.values` of the guarded request: eagerly validate
`host` then `x-forwarded-host`, then return all stored values. -/
def patchedValues (h : HeadersT) (allowedHosts : List String)
    (s : Signal) : Except Err (List String) × Signal :=
  match validateHeader "host" (headersGet h "host") allowedHosts s with
  | (.error e, s1) => (.error e, s1)
  | (.ok _, s1) =>
      match validateHeader "x-forwarded-host" (headersGet h "x-forwarded-host") allowedHosts s1 with
      | (.error e, s2) => (.error e, s2)
      | (.ok _, s2) => (.ok (h.map Prod.snd), s2)

/-- One full traversal of the patched `headers.entries` iterator: each
underlying pair is validated before it is yielded; the traversal stops at
the first failure, whose pair is not yielded.  Returns the yielded pairs,
the thrown error (if any) and the final signal. -/
def entriesAux (allowedHosts : List String) :
    List (String × String) → Signal → List (String × String) × Option Err × Signal
  | [], s => ([], none, s)
  | (k, v) :: rest, s =>
      match validateHeader k (some v) allowedHosts s with
      | (.error e, s1) => ([], some e, s1)
      | (.ok _, s1) =>
          match entriesAux allowedHosts rest s1 with
          | (ps, err, s2) => ((k, v) :: ps, err, s2)

/-- The patched `headers.entries` of the guarded request. -/
def patchedEntries (h : HeadersT) (allowedHosts : List String) (s : Signal) :
    List (String × String) × Option Err × Signal :=
  entriesAux allowedHosts h s

/-- The patched default iterator of the guarded request
(`headers[Symbol.iterator] = headers.entries`). -/
def patchedIterator (h : HeadersT) (allowedHosts : List String) (s : Signal) :
    List (String × String) × Option Err × Signal :=
  patchedEntries h allowedHosts s


theorem takeWhile_append_stop (p : Char → Bool) (c : Char) :
    ∀ (a b : List Char), p c = false → (a ++ c :: b).takeWhile p = a.takeWhile p
  | [], b, hc => by simp [List.takeWhile_cons, hc]
  | x :: xs, b, hc => by
      cases hx : p x with
      | false => simp [List.takeWhile_cons, hx]
      | true => simp [List.takeWhile_cons, hx, takeWhile_append_stop p c xs b hc]

theorem joinComma_cons_data (x r : String) (rest : List String) :
    (joinComma (x :: r :: rest)).data = x.data ++ ',' :: (joinComma (r :: rest)).data := by
  show (x ++ "," ++ joinComma (r :: rest)).data = _
  simp [String.data_append]

theorem firstCommaSegment_joinComma (x r : String) (rs : List String) :
    firstCommaSegment (joinComma (x :: r :: rs)) = firstCommaSegment x := by
  unfold firstCommaSegment
  rw [joinComma_cons_data, takeWhile_append_stop (· != ',') ',' x.data
    (joinComma (r :: rs)).data (by decide)]

/-- C7 (counterexample): a sequence of strings is NOT taken "as-is": the
array is joined with commas and then split at the first comma and trimmed,
so `["a,b", "c"]` yields `"a"` rather than the first element `"a,b"`, and
surrounding whitespace of the first element is trimmed. -/
theorem c7_sequence_counterexample :
    getFirstHeaderValue (HeaderValue.arr ["a,b", "c"]) = some "a" ∧
    getFirstHeaderValue (HeaderValue.arr ["a,b", "c"]) ≠ some "a,b" ∧
    getFirstHeaderValue (HeaderValue.arr ["  ab  ", "c"]) = some "ab" := by
  refine ⟨rfl, ?_, rfl⟩
  decide

/-- C7 (amended): `getFirstHeaderValue` is a total pure function; an absent
input yields absent; the empty string yields the empty string (distinct
from absent); a single string yields the segment left of its first comma,
trimmed of surrounding whitespace; and a sequence of strings yields the
comma-join of its elements subjected to that same first-comma split and
trim — equivalently, the first element's segment before its own first
comma, trimmed (an empty sequence yields the empty string). -/
theorem c7_first_value_amended (s x : String) (rest : List String) :
    getFirstHeaderValue .absent = none ∧
    getFirstHeaderValue (.str "") = some "" ∧
    getFirstHeaderValue (.str s) = some (jsTrim (firstCommaSegment s)) ∧
    getFirstHeaderValue (.arr []) = some "" ∧
    getFirstHeaderValue (.arr (x :: rest)) =
      some (jsTrim (firstCommaSegment (joinComma (x :: rest)))) ∧
    getFirstHeaderValue (.arr (x :: rest)) = some (jsTrim (firstCommaSegment x)) := by
  refine ⟨rfl, rfl, rfl, rfl, rfl, ?_⟩
  cases rest with
  | nil => rfl
  | cons r rs =>
      show some (jsTrim (firstCommaSegment (joinComma (x :: r :: rs)))) = _
      rw [firstCommaSegment_joinComma]

/-- C3: `isHostAllowed` returns true iff the hostname is exactly a member
of the allowlist, or some member of the form `*.<suffix>` satisfies that
the hostname ends with `.<suffix>`; a wildcard never matches its bare
suffix, and comparison is raw and case-sensitive. -/
theorem c3_isHostAllowed_characterization (hostname : String) (allowedHosts : List String) :
    (isHostAllowed hostname allowedHosts = true ↔
      hostname ∈ allowedHosts ∨
        ∃ suffix : String, ("*." ++ suffix) ∈ allowedHosts ∧
          jsEndsWith hostname ("." ++ suffix) = true) ∧
    isHostAllowed "foo.google.com" ["*.google.com"] = true ∧
    isHostAllowed "google.com" ["*.google.com"] = false ∧
    isHostAllowed "example.com" ["example.com"] = true ∧
    isHostAllowed "EXAMPLE.com" ["example.com"] = false := by
  refine ⟨?_, by decide, by decide, by decide, by decide⟩
  unfold isHostAllowed
  rw [Bool.or_eq_true]
  constructor
  · rintro (hc | ha)
    · exact Or.inl (List.elem_iff.mp hc)
    · rw [List.any_eq_true] at ha
      obtain ⟨a, haA, hp⟩ := ha
      rw [Bool.and_eq_true] at hp
      obtain ⟨hpre, hsuf⟩ := hp
      unfold jsStartsWith at hpre
      rw [ List.isPrefixOf_iff_prefix] at hpre
      obtain ⟨t, ht⟩ := hpre
      refine Or.inr ⟨⟨t⟩, ?_, ?_⟩
      · have hEq : ("*." ++ (⟨t⟩ : String)) = a := by
          apply String.ext
          rw [String.data_append]
          exact ht
        rwa [hEq]
      · have hd : ("." ++ (⟨t⟩ : String)).data = a.data.drop 1 := by
          rw [String.data_append, ← ht]
          rfl
        simp only [jsEndsWith, jsSlice] at hsuf ⊢
        rw [hd]
        exact hsuf
  · rintro (hm | ⟨suffix, hmem, hend⟩)
    · exact Or.inl (List.elem_iff.mpr hm)
    · refine Or.inr ?_
      rw [List.any_eq_true]
      refine ⟨"*." ++ suffix, hmem, ?_⟩
      rw [Bool.and_eq_true]
      refine ⟨?_, ?_⟩
      · unfold jsStartsWith
        rw [ List.isPrefixOf_iff_prefix, String.data_append]
        exact ⟨suffix.data, rfl⟩
      · have hdrop : (("*." ++ suffix).data.drop 1) = ("." ++ suffix).data := by
          rw [String.data_append]
          rfl
        simp only [jsEndsWith, jsSlice] at hend ⊢
        rw [hdrop]
        exact hend

/-- Witness for C3: a wildcard entry matches a proper subdomain through the
characterization. -/
theorem c3_witness :
    isHostAllowed "sub.foo.google.com" ["*.google.com"] = true :=
  (c3_isHostAllowed_characterization "sub.foo.google.com" ["*.google.com"]).1.mpr
    (Or.inr ⟨"google.com", by decide, by decide⟩)

theorem bne_empty_eq_not_isEmpty (s : String) : (s != "") = !s.data.isEmpty := by
  rw [Bool.eq_iff_iff]
  simp [bne_iff_ne, String.ext_iff, List.isEmpty_iff]

/-- The claim's trigger for the `host`/`x-forwarded-host` character error:
the first value is present and contains a character outside letters,
digits, `.`, `:`, `-`. -/
def hostHeaderBad (h : HeadersT) (name : String) : Bool :=
  match firstValueOpt (headersGet h name) with
  | some v => v.data.any (fun c => !(c.isAlpha || c.isDigit || c == '.' || c == ':' || c == '-'))
  | none => false

/-- The claim's trigger for the port error: the first value is present and
not all digits. -/
def portHeaderBad (h : HeadersT) : Bool :=
  match firstValueOpt (headersGet h "x-forwarded-port") with
  | some v => !v.data.all Char.isDigit
  | none => false

/-- The claim's trigger for the proto error: the first value is present,
non-empty, and not case-insensitively `http` or `https`. -/
def protoHeaderBad (h : HeadersT) : Bool :=
  match firstValueOpt (headersGet h "x-forwarded-proto") with
  | some v => v != "" && !validProtoStr v
  | none => false

theorem checkHostHeader_eq (h : HeadersT) (name : String) :
    checkHostHeader h name =
      if hostHeaderBad h name then .error (.headerChars name) else .ok () := by
  unfold checkHostHeader hostHeaderBad
  cases firstValueOpt (headersGet h name) with
  | none => rfl
  | some v =>
      have hcond : (v != "" && !validHostStr v)
          = v.data.any (fun c => !(c.isAlpha || c.isDigit || c == '.' || c == ':' || c == '-')) := by
        rw [bne_empty_eq_not_isEmpty]
        unfold validHostStr
        cases hd : v.data with
        | nil => simp
        | cons c cs => simp [List.not_all_eq_any_not]
      dsimp only
      rw [hcond]

theorem checkPort_eq (h : HeadersT) :
    checkPort h = if portHeaderBad h then .error .portFormat else .ok () := by
  unfold checkPort portHeaderBad
  cases firstValueOpt (headersGet h "x-forwarded-port") with
  | none => rfl
  | some v =>
      have hcond : (v != "" && !validPortStr v) = !v.data.all Char.isDigit := by
        rw [bne_empty_eq_not_isEmpty]
        unfold validPortStr
        cases hd : v.data with
        | nil => simp
        | cons c cs => simp
      dsimp only
      rw [hcond]

theorem checkProto_eq (h : HeadersT) :
    checkProto h = if protoHeaderBad h then .error .protoFormat else .ok () := by
  unfold checkProto protoHeaderBad
  cases firstValueOpt (headersGet h "x-forwarded-proto") with
  | none => rfl
  | some v => rfl

theorem validateHeaders_eq (h : HeadersT) :
    validateHeaders h =
      if hostHeaderBad h "host" then .error (.headerChars "host")
      else if hostHeaderBad h "x-forwarded-host" then .error (.headerChars "x-forwarded-host")
      else if portHeaderBad h then .error .portFormat
      else if protoHeaderBad h then .error .protoFormat
      else .ok () := by
  unfold validateHeaders
  rw [checkHostHeader_eq, checkHostHeader_eq, checkPort_eq, checkProto_eq]
  cases hb1 : hostHeaderBad h "host" <;> cases hb2 : hostHeaderBad h "x-forwarded-host" <;>
    cases hb3 : portHeaderBad h <;> cases hb4 : protoHeaderBad h <;> simp

theorem hostHeaderBad_of_empty (h : HeadersT) (n : String)
    (hc : firstValueOpt (headersGet h n) = none ∨ firstValueOpt (headersGet h n) = some "") :
    hostHeaderBad h n = false := by
  unfold hostHeaderBad
  rcases hc with hc | hc <;> rw [hc]
  rfl

theorem portHeaderBad_of_empty (h : HeadersT)
    (hc : firstValueOpt (headersGet h "x-forwarded-port") = none ∨
      firstValueOpt (headersGet h "x-forwarded-port") = some "") :
    portHeaderBad h = false := by
  unfold portHeaderBad
  rcases hc with hc | hc <;> rw [hc]
  rfl

theorem protoHeaderBad_of_empty (h : HeadersT)
    (hc : firstValueOpt (headersGet h "x-forwarded-proto") = none ∨
      firstValueOpt (headersGet h "x-forwarded-proto") = some "") :
    protoHeaderBad h = false := by
  unfold protoHeaderBad
  rcases hc with hc | hc <;> rw [hc]
  rfl

/-- C8: `validateHeaders` throws the `Header "<name>" contains characters
that are not allowed.` error exactly when the first value of `host` (or,
that one being fine, of `x-forwarded-host`) is present and contains a
character outside letters, digits, `.`, `:`, `-`; the numeric-port error
exactly when (the host checks passing) the first value of
`x-forwarded-port` is present and not all digits; and the proto error
exactly when (all earlier checks passing) the first value of
`x-forwarded-proto` is present and not case-insensitively `http`/`https`;
an absent or empty first value never causes a throw, and the message texts
are exact. -/
theorem c8_validateHeaders_format_errors (h : HeadersT) :
    (∀ name, validateHeaders h = .error (.headerChars name) ↔
        (name = "host" ∧ hostHeaderBad h "host" = true) ∨
        (name = "x-forwarded-host" ∧ hostHeaderBad h "host" = false ∧
          hostHeaderBad h "x-forwarded-host" = true)) ∧
    (validateHeaders h = .error .portFormat ↔
      hostHeaderBad h "host" = false ∧ hostHeaderBad h "x-forwarded-host" = false ∧
        portHeaderBad h = true) ∧
    (validateHeaders h = .error .protoFormat ↔
      hostHeaderBad h "host" = false ∧ hostHeaderBad h "x-forwarded-host" = false ∧
        portHeaderBad h = false ∧ protoHeaderBad h = true) ∧
    (validateHeaders h = .ok () ↔
      hostHeaderBad h "host" = false ∧ hostHeaderBad h "x-forwarded-host" = false ∧
        portHeaderBad h = false ∧ protoHeaderBad h = false) ∧
    ((∀ name, name ∈ (["host", "x-forwarded-host", "x-forwarded-port",
        "x-forwarded-proto"] : List String) →
        firstValueOpt (headersGet h name) = none ∨
          firstValueOpt (headersGet h name) = some "") →
      validateHeaders h = .ok ()) ∧
    (∀ name, (Err.headerChars name).message
        = "Header \"" ++ name ++ "\" contains characters that are not allowed.") ∧
    Err.portFormat.message = "Header \"x-forwarded-port\" must be a numeric value." ∧
    Err.protoFormat.message = "Header \"x-forwarded-proto\" must be either \"http\" or \"https\"." := by
  refine ⟨?_, ?_, ?_, ?_, ?_, fun name => rfl, rfl, rfl⟩
  · intro name
    rw [validateHeaders_eq]
    cases hb1 : hostHeaderBad h "host" <;> cases hb2 : hostHeaderBad h "x-forwarded-host" <;>
      cases hb3 : portHeaderBad h <;> cases hb4 : protoHeaderBad h <;>
        simp [eq_comm]
  · rw [validateHeaders_eq]
    cases hb1 : hostHeaderBad h "host" <;> cases hb2 : hostHeaderBad h "x-forwarded-host" <;>
      cases hb3 : portHeaderBad h <;> cases hb4 : protoHeaderBad h <;> simp
  · rw [validateHeaders_eq]
    cases hb1 : hostHeaderBad h "host" <;> cases hb2 : hostHeaderBad h "x-forwarded-host" <;>
      cases hb3 : portHeaderBad h <;> cases hb4 : protoHeaderBad h <;> simp
  · rw [validateHeaders_eq]
    cases hb1 : hostHeaderBad h "host" <;> cases hb2 : hostHeaderBad h "x-forwarded-host" <;>
      cases hb3 : portHeaderBad h <;> cases hb4 : protoHeaderBad h <;> simp
  · intro habs
    have b1 := hostHeaderBad_of_empty h "host" (habs "host" (by simp))
    have b2 := hostHeaderBad_of_empty h "x-forwarded-host" (habs "x-forwarded-host" (by simp))
    have b3 := portHeaderBad_of_empty h (habs "x-forwarded-port" (by simp))
    have b4 := protoHeaderBad_of_empty h (habs "x-forwarded-proto" (by simp))
    rw [validateHeaders_eq, b1, b2, b3, b4]
    rfl

/-- Witness for C8 at concrete requests: an invalid port value, an invalid
host value, and a case-insensitively valid proto value. -/
theorem c8_witness :
    validateHeaders [("x-forwarded-port", "abc")] = .error .portFormat ∧
    validateHeaders [("host", "example.com/bad")] = .error (.headerChars "host") ∧
    validateHeaders [("x-forwarded-proto", "HTTP")] = .ok () := by
  refine ⟨?_, ?_, ?_⟩
  · exact (c8_validateHeaders_format_errors _).2.1.mpr ⟨rfl, rfl, rfl⟩
  · exact ((c8_validateHeaders_format_errors _).1 "host").mpr (Or.inl ⟨rfl, rfl⟩)
  · exact (c8_validateHeaders_format_errors _).2.2.2.1.mpr ⟨rfl, rfl, rfl, rfl⟩

/-- The trailing dot-segment test of the claim's condition: the last path
segment equals `.` or `..`. -/
def lastSegDot (s : String) : Bool :=
  isDotSegment ((pathSegments s).getLast?.getD "")

/-- The claim's formulation of the `x-forwarded-prefix` rejection
condition: begins with two or more of `/` or `\` in any combination, or
any path segment equals `.` or `..`, or the whole value is `.` or `..`, or
it ends in a trailing dot-segment. -/
def claimDotCond (s : String) : Bool :=
  startsWithTwoSeps s || (pathSegments s).any isDotSegment || s == "." || s == ".." ||
    lastSegDot s

theorem claimDotCond_eq (s : String) : claimDotCond s = forwardedPrefixBad s := by
  rw [Bool.eq_iff_iff]
  unfold claimDotCond forwardedPrefixBad
  constructor
  · intro hcl
    simp only [Bool.or_eq_true] at hcl ⊢
    rcases hcl with ((((h1 | h2) | h3) | h4) | h5)
    · exact Or.inl h1
    · exact Or.inr h2
    · right
      have hs : s = "." := by simpa using h3
      rw [hs]
      decide
    · right
      have hs : s = ".." := by simpa using h4
      rw [hs]
      decide
    · right
      rw [List.any_eq_true]
      unfold lastSegDot at h5
      cases hl : (pathSegments s).getLast? with
      | none =>
          rw [hl] at h5
          exact absurd h5 (by decide)
      | some t =>
          rw [hl] at h5
          exact ⟨t, List.mem_of_getLast?_eq_some hl, h5⟩
  · intro hfb
    simp only [Bool.or_eq_true] at hfb ⊢
    rcases hfb with h1 | h2
    · simp [h1]
    · simp [h2]

theorem validateHeaders_ne_traversal (h : HeadersT) :
    validateHeaders h ≠ .error .traversal := by
  rw [validateHeaders_eq]
  cases hb1 : hostHeaderBad h "host" <;> cases hb2 : hostHeaderBad h "x-forwarded-host" <;>
    cases hb3 : portHeaderBad h <;> cases hb4 : protoHeaderBad h <;> simp

/-- C1 (spec-modelled `x-forwarded-prefix` check): `validateHeadersSpec`
throws the PrefixTraversalError, with the exact message, exactly when the
other header checks pass and the first value of `x-forwarded-prefix` is
present, non-empty, and begins with two or more of `/` or `\` in any
combination or has a path segment equal to `.` or `..` (equivalently the
claim's condition `claimDotCond`); values failing that condition — e.g.
segments merely containing a dot — are accepted without error. -/
theorem c1_forwarded_prefix_check (h : HeadersT) :
    (validateHeadersSpec h = .error .traversal ↔
      validateHeaders h = .ok () ∧
        ∃ v, firstValueOpt (headersGet h "x-forwarded-prefix") = some v ∧ v ≠ "" ∧
          claimDotCond v = true) ∧
    (∀ v, firstValueOpt (headersGet h "x-forwarded-prefix") = some v → claimDotCond v = false →
      validateHeadersSpec h = validateHeaders h) ∧
    (firstValueOpt (headersGet h "x-forwarded-prefix") = none →
      validateHeadersSpec h = validateHeaders h) ∧
    Err.traversal.message =
      "Header \"x-forwarded-prefix\" must not start with multiple \"/\" or \"\\\" or contain \".\", \"..\" path segments." := by
  refine ⟨?_, ?_, ?_, rfl⟩
  · unfold validateHeadersSpec
    cases hv : validateHeaders h with
    | error e =>
        dsimp only
        constructor
        · intro hEq
          injection hEq with hET
          rw [hET] at hv
          exact absurd hv (validateHeaders_ne_traversal h)
        · rintro ⟨hok, _⟩
          exact absurd hok (by simp)
    | ok u =>
        cases u
        dsimp only
        constructor
        · intro hEq
          refine ⟨rfl, ?_⟩
          revert hEq
          cases hf : firstValueOpt (headersGet h "x-forwarded-prefix") with
          | none => intro hEq; exact absurd hEq (by simp)
          | some v =>
              dsimp only
              intro hEq
              refine ⟨v, rfl, ?_, ?_⟩
              · intro hv0
                subst hv0
                simp at hEq
              · rw [claimDotCond_eq]
                by_contra hcontra
                have hfb : forwardedPrefixBad v = false := by
                  cases hb : forwardedPrefixBad v
                  · rfl
                  · exact absurd hb hcontra
                rw [hfb] at hEq
                simp at hEq
        · rintro ⟨_, v, hf, hne, hcl⟩
          rw [hf]
          dsimp only
          rw [claimDotCond_eq] at hcl
          rw [hcl]
          simp [hne]
  · intro v hf hcl
    unfold validateHeadersSpec
    cases hv : validateHeaders h with
    | error e => rfl
    | ok u =>
        cases u
        rw [hf]
        dsimp only
        rw [claimDotCond_eq] at hcl
        rw [hcl]
        simp
  · intro hf
    unfold validateHeadersSpec
    cases hv : validateHeaders h with
    | error e => rfl
    | ok u =>
        cases u
        rw [hf]

/-- Witness for C1: the rejected and accepted `x-forwarded-prefix` values
of the repository's unit tests behave as claimed. -/
theorem c1_witness :
    validateHeadersSpec [("x-forwarded-prefix", "//evil")] = .error .traversal ∧
    validateHeadersSpec [("x-forwarded-prefix", "/foo/../bar")] = .error .traversal ∧
    validateHeadersSpec [("x-forwarded-prefix", "/v1.2")] = .ok () ∧
    validateHeadersSpec [("x-forwarded-prefix", "/.well-known")] = .ok () ∧
    (["//evil", "\\\\evil", "/\\evil", "\\/evil", "/./", "/../", "/foo/./bar",
      "/foo/../bar", "/.", "/..", "./", "../", ".\\", "..\\", "/foo/.\\bar",
      "/foo/..\\bar", ".", ".."].all claimDotCond) = true ∧
    (["/foo.bar", "/foo.bar/baz", "/v1.2", "/.well-known"].all
      (fun s => !claimDotCond s)) = true := by
  refine ⟨?_, ?_, ?_, ?_, by decide, by decide⟩
  · exact (c1_forwarded_prefix_check _).1.mpr ⟨rfl, "//evil", rfl, by decide, by decide⟩
  · exact (c1_forwarded_prefix_check _).1.mpr ⟨rfl, "/foo/../bar", rfl, by decide, by decide⟩
  · exact ((c1_forwarded_prefix_check [("x-forwarded-prefix", "/v1.2")]).2.1
      "/v1.2" rfl (by decide)).trans rfl
  · exact ((c1_forwarded_prefix_check [("x-forwarded-prefix", "/.well-known")]).2.1
      "/.well-known" rfl (by decide)).trans rfl

/-- C2 (spec-modelled `disableHostCheck`): `validateRequest` always runs
the header checks; it runs the URL hostname check exactly when
`disableHostCheck` is not true, so with `disableHostCheck` true a request
whose URL hostname is outside the allowlist but whose headers are
well-formed does not throw. -/
theorem c2_validateRequest_disableHostCheck (request : Requestm) (allowedHosts : List String) :
    (∀ (d : Bool) (e : Err), validateHeadersSpec request.headers = .error e →
      validateRequest request allowedHosts d = .error e) ∧
    (validateHeadersSpec request.headers = .ok () →
      validateRequest request allowedHosts false = validateUrl request.url allowedHosts) ∧
    (validateHeadersSpec request.headers = .ok () →
      validateRequest request allowedHosts true = .ok ()) ∧
    (validateHeadersSpec request.headers = .ok () →
      isHostAllowed request.url.hostname allowedHosts = false →
      validateRequest request allowedHosts true = .ok () ∧
        validateRequest request allowedHosts false =
          .error (.urlNotAllowed request.url.hostname)) := by
  refine ⟨?_, ?_, ?_, ?_⟩
  · intro d e he
    unfold validateRequest
    rw [he]
  · intro hok
    unfold validateRequest
    rw [hok]
    rfl
  · intro hok
    unfold validateRequest
    rw [hok]
    rfl
  · intro hok hbad
    constructor
    · unfold validateRequest
      rw [hok]
      rfl
    · unfold validateRequest validateUrl
      rw [hok]
      dsimp only
      rw [hbad]
      rfl

/-- Witness for C2: with well-formed headers and a disallowed URL
hostname, the check is skipped exactly when `disableHostCheck` is true. -/
theorem c2_witness :
    validateRequest ⟨[("x-forwarded-proto", "https")], ⟨"evil.com"⟩⟩ ["example.com"] true
      = .ok () ∧
    validateRequest ⟨[("x-forwarded-proto", "https")], ⟨"evil.com"⟩⟩ ["example.com"] false
      = .error (.urlNotAllowed "evil.com") :=
  (c2_validateRequest_disableHostCheck _ _).2.2.2 rfl rfl

/-- C4: on a guarded request, `get(name)` returns the raw stored value with
no validation when it is absent or empty or the name is not sensitive;
when the name is sensitive and the (first) value present it builds
`http://<value>`, throws the unparsable-header error when that URL cannot
be parsed, throws the not-allowed error exactly when the parsed hostname
fails the allowlist check, and on any failure resolves the error signal
with the identical error that is re-thrown; the message texts are exact. -/
theorem c4_patchedGet_behavior (h : HeadersT) (A : List String) (name : String) (s : Signal) :
    (headersGet h name = none → patchedGet h A name s = (.ok none, s)) ∧
    (headersGet h name = some "" → patchedGet h A name s = (.ok (some ""), s)) ∧
    (isSensitiveName name = false → patchedGet h A name s = (.ok (headersGet h name), s)) ∧
    (∀ v, headersGet h name = some v → isSensitiveName name = true →
      firstValueStr v ≠ "" →
      (parseHost (firstValueStr v) = none →
        patchedGet h A name s =
          (.error (.unparsable name), resolveSignal s (.unparsable name))) ∧
      (∀ hostname, parseHost (firstValueStr v) = some hostname →
        isHostAllowed hostname A = false →
        patchedGet h A name s =
          (.error (.headerNotAllowed name (firstValueStr v)),
            resolveSignal s (.headerNotAllowed name (firstValueStr v)))) ∧
      (∀ hostname, parseHost (firstValueStr v) = some hostname →
        isHostAllowed hostname A = true →
        patchedGet h A name s = (.ok (some v), s))) ∧
    ((Err.unparsable name).message =
      "Header \"" ++ name ++ "\" contains an invalid value and cannot be parsed.") ∧
    (∀ value, (Err.headerNotAllowed name value).message =
      "Header \"" ++ name ++ "\" with value \"" ++ value ++ "\" is not allowed.") := by
  refine ⟨?_, ?_, ?_, ?_, rfl, fun value => rfl⟩
  · intro hg
    unfold patchedGet
    rw [hg]
  · intro hg
    unfold patchedGet
    rw [hg]
    simp
  · intro hs
    unfold patchedGet validateHeader headerCheck
    cases hg : headersGet h name with
    | none => rfl
    | some v =>
        by_cases hv : v = ""
        · subst hv
          simp
        · simp [hv, hs]
  · intro v hg hs hfv
    have hvne : v ≠ "" := by
      intro h0
      apply hfv
      rw [h0]
      rfl
    refine ⟨?_, ?_, ?_⟩
    · intro hp
      unfold patchedGet validateHeader headerCheck verifyHostAllowed
      rw [hg]
      simp [hvne, hs, hfv, hp]
    · intro hostname hp hallow
      unfold patchedGet validateHeader headerCheck verifyHostAllowed
      rw [hg]
      simp [hvne, hs, hfv, hp, hallow]
    · intro hostname hp hallow
      unfold patchedGet validateHeader headerCheck verifyHostAllowed
      rw [hg]
      simp [hvne, hs, hfv, hp, hallow]

/-- Witness for C4 at concrete requests: a disallowed sensitive header
value throws and resolves the signal with the same error; a non-sensitive
header is returned unvalidated. -/
theorem c4_witness :
    patchedGet [("host", "evil.com")] ["example.com"] "host" none =
      (.error (.headerNotAllowed "host" "evil.com"),
        some (.headerNotAllowed "host" "evil.com")) ∧
    patchedGet [("accept", "application/json")] ["example.com"] "accept" none =
      (.ok (some "application/json"), none) := by
  constructor
  · exact ((c4_patchedGet_behavior [("host", "evil.com")] ["example.com"] "host"
      none).2.2.2.1 "evil.com" rfl rfl (by decide)).2.1 "evil.com" rfl rfl
  · exact (c4_patchedGet_behavior [("accept", "application/json")] ["example.com"]
      "accept" none).2.2.1 rfl

/-- Whether the guard's per-header check accepts a (name, value) pair. -/
def checkPasses (allowedHosts : List String) (p : String × String) : Bool :=
  match headerCheck p.1 (some p.2) allowedHosts with
  | .ok _ => true
  | .error _ => false

/-- The error of the first pair failing the guard's per-header check. -/
def firstFailErr (allowedHosts : List String) : List (String × String) → Option Err
  | [] => none
  | p :: rest =>
      match headerCheck p.1 (some p.2) allowedHosts with
      | .error e => some e
      | .ok _ => firstFailErr allowedHosts rest

theorem entriesAux_pairs (A : List String) :
    ∀ (l : List (String × String)) (s : Signal),
      (entriesAux A l s).1 = l.takeWhile (checkPasses A) ∧
      (entriesAux A l s).2.1 = firstFailErr A l ∧
      (entriesAux A l s).2.2 =
        (match firstFailErr A l with
         | none => s
         | some e => resolveSignal s e)
  | [], s => ⟨rfl, rfl, rfl⟩
  | (k, v) :: rest, s => by
      cases hc : headerCheck k (some v) A with
      | error e =>
          refine ⟨?_, ?_, ?_⟩ <;>
            simp [entriesAux, validateHeader, firstFailErr, checkPasses,
              List.takeWhile_cons, hc]
      | ok u =>
          cases u
          have IH := entriesAux_pairs A rest s
          refine ⟨?_, ?_, ?_⟩ <;>
            simp [entriesAux, validateHeader, firstFailErr, checkPasses,
              List.takeWhile_cons, hc, IH.1, IH.2.1, IH.2.2]

/-- C6: on a guarded request, `values()` eagerly validates `host` then
`x-forwarded-host` (in that fixed order) before producing the enumeration
of all stored values, throwing on the first invalid one; `entries()`
yields pairs lazily, checking each pair immediately before it is yielded,
so the pairs actually yielded form the longest prefix passing the check
and no pair at or after an invalid sensitive header is yielded; default
iteration behaves identically to `entries()`. -/
theorem c6_values_entries_enumeration (h : HeadersT) (A : List String) (s : Signal) :
    (∀ e, headerCheck "host" (headersGet h "host") A = .error e →
      patchedValues h A s = (.error e, resolveSignal s e)) ∧
    (∀ e, headerCheck "host" (headersGet h "host") A = .ok () →
      headerCheck "x-forwarded-host" (headersGet h "x-forwarded-host") A = .error e →
      patchedValues h A s = (.error e, resolveSignal s e)) ∧
    (headerCheck "host" (headersGet h "host") A = .ok () →
      headerCheck "x-forwarded-host" (headersGet h "x-forwarded-host") A = .ok () →
      patchedValues h A s = (.ok (h.map Prod.snd), s)) ∧
    (patchedEntries h A s).1 = h.takeWhile (checkPasses A) ∧
    (patchedEntries h A s).2.1 = firstFailErr A h ∧
    (∀ s2, patchedIterator h A s2 = patchedEntries h A s2) := by
  refine ⟨?_, ?_, ?_, (entriesAux_pairs A h s).1, (entriesAux_pairs A h s).2.1,
    fun s2 => rfl⟩
  · intro e he
    unfold patchedValues validateHeader
    rw [he]
  · intro e hok he
    unfold patchedValues validateHeader
    rw [hok, he]
  · intro hok1 hok2
    unfold patchedValues validateHeader
    rw [hok1, hok2]

/-- Witness for C6 at a concrete request: `values()` throws on the invalid
host header; `entries()` yields only the pairs before it. -/
theorem c6_witness :
    patchedValues [("host", "evil.com")] ["example.com"] none =
      (.error (.headerNotAllowed "host" "evil.com"),
        some (.headerNotAllowed "host" "evil.com")) ∧
    (patchedEntries [("accept", "a"), ("host", "evil.com"), ("z", "1")]
      ["example.com"] none).1 = [("accept", "a")] := by
  constructor
  · exact (c6_values_entries_enumeration [("host", "evil.com")] ["example.com"] none).1
      (.headerNotAllowed "host" "evil.com") rfl
  · exact ((c6_values_entries_enumeration [("accept", "a"), ("host", "evil.com"), ("z", "1")]
      ["example.com"] none).2.2.2.1).trans rfl

theorem patchedGet_spec (h : HeadersT) (A : List String) (n : String) (s : Signal) :
    patchedGet h A n s =
      ((patchedGet h A n none).1,
        match (patchedGet h A n none).1 with
        | .error e => resolveSignal s e
        | .ok _ => s) := by
  unfold patchedGet validateHeader
  cases hg : headersGet h n with
  | none => rfl
  | some v =>
      by_cases hv : v = ""
      · subst hv
        simp
      · cases hc : headerCheck n (some v) A with
        | ok u =>
            cases u
            simp [hv, hc]
        | error e =>
            simp [hv, hc, resolveSignal]

theorem patchedValues_spec (h : HeadersT) (A : List String) (s : Signal) :
    patchedValues h A s =
      ((patchedValues h A none).1,
        match (patchedValues h A none).1 with
        | .error e => resolveSignal s e
        | .ok _ => s) := by
  unfold patchedValues validateHeader
  cases hc1 : headerCheck "host" (headersGet h "host") A with
  | error e => simp [resolveSignal]
  | ok u =>
      cases u
      cases hc2 : headerCheck "x-forwarded-host" (headersGet h "x-forwarded-host") A with
      | error e => simp [resolveSignal]
      | ok u2 =>
          cases u2
          simp

/-- One observable header access on a guarded request. -/
inductive Access where
  | get (name : String)
  | vals
  | ents
deriving DecidableEq

/-- Running one access: the error it throws (if any) and the signal after
it. -/
def runAccess (h : HeadersT) (A : List String) : Access → Signal → Option Err × Signal
  | .get n, s =>
      match patchedGet h A n s with
      | (.ok _, s1) => (none, s1)
      | (.error e, s1) => (some e, s1)
  | .vals, s =>
      match patchedValues h A s with
      | (.ok _, s1) => (none, s1)
      | (.error e, s1) => (some e, s1)
  | .ents, s =>
      match patchedEntries h A s with
      | (_, err, s1) => (err, s1)

/-- Running a sequence of accesses on one guarded request, threading the
signal: the per-access thrown errors and the final signal. -/
def runAccesses (h : HeadersT) (A : List String) :
    List Access → Signal → List (Option Err) × Signal
  | [], s => ([], s)
  | a :: rest, s =>
      match runAccess h A a s with
      | (e, s1) =>
          match runAccesses h A rest s1 with
          | (es, s2) => (e :: es, s2)

theorem runAccess_spec (h : HeadersT) (A : List String) (a : Access) (s : Signal) :
    runAccess h A a s =
      ((runAccess h A a none).1,
        match (runAccess h A a none).1 with
        | none => s
        | some e => resolveSignal s e) := by
  cases a with
  | get n =>
      rcases hpn : patchedGet h A n none with ⟨r0, s0⟩
      have hs := patchedGet_spec h A n s
      rw [hpn] at hs
      cases r0 with
      | error e => simp [runAccess, hs, hpn]
      | ok r => simp [runAccess, hs, hpn]
  | vals =>
      rcases hpn : patchedValues h A none with ⟨r0, s0⟩
      have hs := patchedValues_spec h A s
      rw [hpn] at hs
      cases r0 with
      | error e => simp [runAccess, hs, hpn]
      | ok r => simp [runAccess, hs, hpn]
  | ents =>
      have hlhs : runAccess h A .ents s =
          ((entriesAux A h s).2.1, (entriesAux A h s).2.2) := rfl
      have hlhs0 : runAccess h A .ents none =
          ((entriesAux A h none).2.1, (entriesAux A h none).2.2) := rfl
      rw [hlhs, hlhs0, (entriesAux_pairs A h s).2.1, (entriesAux_pairs A h s).2.2,
        (entriesAux_pairs A h none).2.1]

theorem runAccesses_errs (h : HeadersT) (A : List String) :
    ∀ (accs : List Access) (s : Signal),
      (runAccesses h A accs s).1 = accs.map (fun a => (runAccess h A a none).1)
  | [], s => rfl
  | a :: rest, s => by
      have ha := runAccess_spec h A a s
      simp [runAccesses, ha, runAccesses_errs h A rest]

theorem runAccesses_keep (h : HeadersT) (A : List String) :
    ∀ (accs : List Access) (e0 : Err),
      (runAccesses h A accs (some e0)).2 = some e0
  | [], e0 => rfl
  | a :: rest, e0 => by
      have ha := runAccess_spec h A a (some e0)
      cases hE : (runAccess h A a none).1 with
      | none =>
          rw [hE] at ha
          simp [runAccesses, ha, runAccesses_keep h A rest e0]
      | some e =>
          rw [hE] at ha
          simp [runAccesses, ha, resolveSignal, runAccesses_keep h A rest e0]

theorem runAccesses_first (h : HeadersT) (A : List String) :
    ∀ accs : List Access,
      (runAccesses h A accs none).2 =
        (((runAccesses h A accs none).1).filterMap id).head?
  | [] => rfl
  | a :: rest => by
      have ha := runAccess_spec h A a none
      cases hE : (runAccess h A a none).1 with
      | none =>
          rw [hE] at ha
          simp [runAccesses, ha, runAccesses_first h A rest]
      | some e =>
          rw [hE] at ha
          simp [runAccesses, ha, resolveSignal, runAccesses_keep h A rest e]

/-- C5: across any sequence of header accesses on one guarded request, the
deferred error signal is resolved at most once, with the error of the
first failing access (and never resolved when no access fails); each
access throws its own error independently of the signal state, and the
error delivered to the signal is the identical error that was thrown;
resolution is first-write-wins. -/
theorem c5_deferred_signal_single_assignment (h : HeadersT) (A : List String)
    (accs : List Access) :
    (runAccesses h A accs none).1 = accs.map (fun a => (runAccess h A a none).1) ∧
    (runAccesses h A accs none).2 =
      (((runAccesses h A accs none).1).filterMap id).head? ∧
    (∀ e : Err, resolveSignal none e = some e) ∧
    (∀ e0 e : Err, resolveSignal (some e0) e = some e0) :=
  ⟨runAccesses_errs h A accs none, runAccesses_first h A accs,
    fun e => rfl, fun e0 e => rfl⟩

theorem verifyHostAllowed_congr (name v1 v2 : String) (A : List String)
    (hEq : firstValueStr v1 = firstValueStr v2) :
    verifyHostAllowed name v1 A = verifyHostAllowed name v2 A := by
  unfold verifyHostAllowed
  rw [hEq]

theorem verifyHostAllowed_empty (name v : String) (A : List String)
    (hfv : firstValueStr v = "") : verifyHostAllowed name v A = .ok () := by
  unfold verifyHostAllowed
  rw [hfv]
  rfl

theorem patchedGet_empty_first (h : HeadersT) (A : List String) (name : String) (s : Signal)
    (v : String) (hg : headersGet h name = some v) (hfv : firstValueStr v = "") :
    patchedGet h A name s = (.ok (some v), s) := by
  unfold patchedGet validateHeader headerCheck
  rw [hg]
  by_cases hv : v = ""
  · subst hv
    simp
  · cases hs : isSensitiveName name
    · simp [hv, hs]
    · simp [hv, hs, verifyHostAllowed_empty name v A hfv]

theorem hostHeaderBad_congr (h1 h2 : HeadersT) (n : String)
    (he : firstValueOpt (headersGet h1 n) = firstValueOpt (headersGet h2 n)) :
    hostHeaderBad h1 n = hostHeaderBad h2 n := by
  unfold hostHeaderBad
  rw [he]

theorem portHeaderBad_congr (h1 h2 : HeadersT)
    (he : firstValueOpt (headersGet h1 "x-forwarded-port")
      = firstValueOpt (headersGet h2 "x-forwarded-port")) :
    portHeaderBad h1 = portHeaderBad h2 := by
  unfold portHeaderBad
  rw [he]

theorem protoHeaderBad_congr (h1 h2 : HeadersT)
    (he : firstValueOpt (headersGet h1 "x-forwarded-proto")
      = firstValueOpt (headersGet h2 "x-forwarded-proto")) :
    protoHeaderBad h1 = protoHeaderBad h2 := by
  unfold protoHeaderBad
  rw [he]

/-- C9: every validation check depends only on the first comma-separated,
trimmed token of a header's value: headers with equal first tokens give
identical `validateHeaders` outcomes, values with equal first tokens give
identical `verifyHostAllowed` outcomes, and a sensitive header whose first
token trims to the empty string passes every check, the guard's `get`
returning its full raw value without throwing. -/
theorem c9_first_token_only :
    (∀ h1 h2 : HeadersT,
      (∀ n, n ∈ (["host", "x-forwarded-host", "x-forwarded-port",
          "x-forwarded-proto"] : List String) →
        firstValueOpt (headersGet h1 n) = firstValueOpt (headersGet h2 n)) →
      validateHeaders h1 = validateHeaders h2) ∧
    (∀ (name v1 v2 : String) (A : List String), firstValueStr v1 = firstValueStr v2 →
      verifyHostAllowed name v1 A = verifyHostAllowed name v2 A) ∧
    (∀ (name v : String) (A : List String), firstValueStr v = "" →
      verifyHostAllowed name v A = .ok ()) ∧
    (∀ (h : HeadersT) (A : List String) (name : String) (s : Signal) (v : String),
      headersGet h name = some v → firstValueStr v = "" →
      patchedGet h A name s = (.ok (some v), s)) := by
  refine ⟨?_, verifyHostAllowed_congr, verifyHostAllowed_empty, patchedGet_empty_first⟩
  intro h1 h2 hfv
  rw [validateHeaders_eq, validateHeaders_eq,
    hostHeaderBad_congr h1 h2 "host" (hfv "host" (by simp)),
    hostHeaderBad_congr h1 h2 "x-forwarded-host" (hfv "x-forwarded-host" (by simp)),
    portHeaderBad_congr h1 h2 (hfv "x-forwarded-port" (by simp)),
    protoHeaderBad_congr h1 h2 (hfv "x-forwarded-proto" (by simp))]

/-- Witness for C9 at a concrete value: `", evil.com"` has an empty first
token, passes `verifyHostAllowed` and `validateHeaders`, and the guard's
`get` returns it raw without throwing. -/
theorem c9_witness :
    firstValueStr ", evil.com" = "" ∧
    verifyHostAllowed "host" ", evil.com" ["example.com"] = .ok () ∧
    patchedGet [("host", ", evil.com")] ["example.com"] "host" none =
      (.ok (some ", evil.com"), none) ∧
    validateHeaders [("host", ", evil.com")] = .ok () := by
  refine ⟨rfl, ?_, ?_, rfl⟩
  · exact c9_first_token_only.2.2.1 "host" ", evil.com" ["example.com"] rfl
  · exact c9_first_token_only.2.2.2 [("host", ", evil.com")] ["example.com"] "host" none
      ", evil.com" rfl rfl

